import Mathlib

set_option maxHeartbeats 1000000

/-!
Verification model of the TitanVM worker pool
(`src/templates/ts/server/src/runtime.rs`).

The Rust source is a bridge between an async front end and a pool of
single-threaded V8 worker threads:

* `WorkerCommand` carries one request (action name, optional body, method,
  path, headers/params/query as `SmallVec`s) plus a `oneshot` reply sender.
* `RuntimeManager::new(project_root, num_threads)` builds a bounded
  crossbeam channel of capacity `num_threads * 2000`, spawns `num_threads`
  worker threads, each initializing its own engine via
  `extensions::init_runtime_worker` and looping
  `recv -> execute_action_optimized -> response_tx.send`.
* `RuntimeManager::execute` builds a command with a fresh oneshot channel,
  sends it, and awaits the reply.

The `extensions` module (engine init and action execution) is repository
code that is not under `src/`; per the spec it is an opaque synchronous
collaborator, so it appears below as abstract parameters
(`init_runtime_worker`, `execute_action_optimized`).

The pool's concurrent behaviour is embedded as a labelled small-step
relation `Step` on `PoolState`, with a ghost trace of `Event`s and a ghost
`log` of completed executions used only for specification.
-/

namespace Titan

/-- Structured result value, modelling `serde_json::Value`: arbitrary
tree-shaped data built from scalars, arrays and string-keyed objects. -/
inductive JsonValue : Type
  | null : JsonValue
  | bool (b : Bool) : JsonValue
  | num (n : Int) : JsonValue
  | str (s : String) : JsonValue
  | arr (elems : List JsonValue) : JsonValue
  | obj (fields : List (String × JsonValue)) : JsonValue

/-- `SmallVec<[(String, String); n]>`: an ordered sequence of string pairs
whose first `n` items are stored inline, spilling to the heap beyond that.
The inline capacity `n` is a storage-layout parameter only; the sequence of
items is the whole functional content. -/
structure SVec (n : Nat) where
  items : List (String × String)
deriving DecidableEq

/-- The inline capacity of a `SmallVec` value (its type-level `N`). -/
def SVec.inlineCapacity {n : Nat} (_ : SVec n) : Nat := n

/-- The request fields of a `WorkerCommand` as handed to the action
function: `action_name`, zero-copy `body` (a shared byte buffer, modelled
as a byte list), `method`, `path`, and the three `SmallVec` collections
with inline capacities 8, 4 and 4 (runtime.rs lines 20-36, minus the
reply sender). -/
structure RequestView where
  action_name : String
  body : Option (List Nat)
  method : String
  path : String
  headers : SVec 8
  params : SVec 4
  query : SVec 4
deriving DecidableEq

/-- `WorkerCommand` (runtime.rs lines 20-41): the request fields plus the
`oneshot::Sender<WorkerResult>` reply channel. The oneshot sender is
modelled by the identifier `response_tx` of the reply slot it writes to. -/
structure WorkerCommand extends RequestView where
  response_tx : Nat
deriving DecidableEq

/-- `WorkerResult` (runtime.rs lines 43-45). -/
structure WorkerResult where
  json : JsonValue

/-- State of one oneshot reply channel.

* `pending`: created, receiver waiting, nothing written yet.
* `abandoned`: the receiver was dropped before any write.
* `written v`: the worker sent `v`; the receiver has not read it yet.
* `discarded`: a write met a dropped receiver (the worker's
  `let _ = cmd.response_tx.send(..)` discards the outcome), or the
  receiver was dropped after a write without reading it.
* `consumed v`: the receiver read `v`. -/
inductive ReplySt : Type
  | pending : ReplySt
  | abandoned : ReplySt
  | written (v : JsonValue) : ReplySt
  | discarded : ReplySt
  | consumed (v : JsonValue) : ReplySt

/-- Worker thread phase: blocked on `rx_clone.recv()` or running
`execute_action_optimized` on a dequeued command. -/
inductive WPhase : Type
  | idle : WPhase
  | executing (c : WorkerCommand) : WPhase
deriving DecidableEq

/-- One worker thread: its private engine (the thread-local V8 isolate
built by `extensions::init_runtime_worker`) and its current phase. -/
structure WorkerSt (Engine : Type) where
  engine : Engine
  phase : WPhase
deriving DecidableEq

/-- Ghost record of one completed execution: which worker ran which
request on which engine state, and the value it produced. Used only for
specification. -/
structure ExecRecord (Engine : Type) where
  rid : Nat
  worker : Nat
  engineBefore : Engine
  request : RequestView
  value : JsonValue

/-- Global state of the pool: the bounded dispatch queue (capacity and
FIFO buffer of the crossbeam channel), the allocator for fresh oneshot
reply identifiers, the state of every reply channel, the worker threads,
and the ghost execution log. -/
structure PoolState (Engine : Type) where
  capacity : Nat
  queue : List WorkerCommand
  nextReplyId : Nat
  replies : Nat → Option ReplySt
  workers : List (WorkerSt Engine)
  log : List (ExecRecord Engine)

/-- `RuntimeManager::new(project_root, num_threads)` (runtime.rs lines
53-97): a bounded channel of capacity `num_threads * 2000` and
`num_threads` worker threads, each owning the engine produced by its own
call to `extensions::init_runtime_worker(project_root)`, all starting
idle on `recv`. -/
def RuntimeManager.new {Engine : Type} (init_runtime_worker : String → Engine)
    (project_root : String) (num_threads : Nat) : PoolState Engine :=
  { capacity := num_threads * 2000
    queue := []
    nextReplyId := 0
    replies := fun _ => none
    workers := (List.range num_threads).map
      (fun _ => { engine := init_runtime_worker project_root, phase := WPhase.idle })
    log := [] }

/-- The `Display` rendering of crossbeam's `SendError`, produced by
`.map_err(|e| e.to_string())` on line 124. -/
def dispatchErrorMsg : String := "sending on a disconnected channel"

/-- The completion-failure message of runtime.rs line 129. -/
def completionErrorMsg : String := "Worker channel closed"

/-- `RuntimeManager::execute` error/result behaviour (runtime.rs lines
100-131). `sender.send(cmd)` fails exactly when the channel is
disconnected, i.e. every worker-held receiver is gone (`workers.isEmpty`
in the model, since workers hold their receiver clones for the process
lifetime); that failure is stringified and returned before awaiting.
Otherwise the caller awaits the oneshot receiver: `reply = some res` is
`Ok(res)` from `rx.await` and yields `Ok(res.json)`; `reply = none` is
the sender having been dropped without a send and yields the distinct
completion error. Every outcome is an ordinary `Except` value; there is
no panicking or aborting path. -/
def RuntimeManager.execute {Engine : Type} (s : PoolState Engine)
    (reply : Option WorkerResult) : Except String JsonValue :=
  if s.workers.isEmpty then Except.error dispatchErrorMsg
  else
    match reply with
    | some res => Except.ok res.json
    | none => Except.error completionErrorMsg

/-- Modelled from the spec: `extensions::init_runtime_worker` is not under
`src/`; the spec states that an engine initialization failure during pool
construction is fatal to startup. The fallible initializer is therefore a
parameter returning `none` on failure, and `initAllWorkers` initializes
the engines of the given worker indices, failing if any one fails. -/
def initAllWorkers {Engine : Type} (init_worker : Nat → String → Option Engine)
    (project_root : String) : List Nat → Option (List Engine)
  | [] => some []
  | i :: is =>
    match init_worker i project_root with
    | none => none
    | some e =>
      match initAllWorkers init_worker project_root is with
      | none => none
      | some es => some (e :: es)

/-- Modelled from the spec: pool construction with a fallible per-thread
engine initializer. `none` models the fatal startup abort: no manager
value is produced. On success every worker starts idle with its own
engine, and the queue has capacity `num_threads * 2000`. -/
def RuntimeManager.newChecked {Engine : Type} (init_worker : Nat → String → Option Engine)
    (project_root : String) (num_threads : Nat) : Option (PoolState Engine) :=
  match initAllWorkers init_worker project_root (List.range num_threads) with
  | none => none
  | some engines =>
    some
      { capacity := num_threads * 2000
        queue := []
        nextReplyId := 0
        replies := fun _ => none
        workers := engines.map (fun e => { engine := e, phase := WPhase.idle })
        log := [] }

/-- The worker's write into a oneshot reply channel
(`let _ = cmd.response_tx.send(..)`, runtime.rs lines 83-85): a pending
receiver gets the value; a dropped receiver silently discards it; any
other state is untouched (unreachable for a well-formed trace). The
outcome is never inspected by the worker. -/
def replyWrite (v : JsonValue) : ReplySt → ReplySt
  | ReplySt.pending => ReplySt.written v
  | ReplySt.abandoned => ReplySt.discarded
  | st => st

/-- The caller dropping its wait on the oneshot receiver: a pending
channel becomes abandoned; a written-but-unread value is dropped. -/
def replyAbandon : ReplySt → ReplySt
  | ReplySt.pending => ReplySt.abandoned
  | ReplySt.written _ => ReplySt.discarded
  | st => st

/-- Ghost trace labels for the pool's observable transitions. -/
inductive Event : Type
  | submit (c : WorkerCommand) : Event
  | dequeue (w : Nat) (c : WorkerCommand) : Event
  | finish (w : Nat) (rid : Nat) : Event
  | abandon (rid : Nat) : Event
  | read (rid : Nat) (v : JsonValue) : Event

/-- The worker thread acting in an event, if any. Submission, reading and
abandoning a reply happen on the async side, not on a worker thread. -/
def actingWorker : Event → Option Nat
  | Event.dequeue w _ => some w
  | Event.finish w _ => some w
  | _ => none

/-- Labelled small-step semantics of the pool, for a fixed opaque action
function `x` (modelled from the spec: `extensions::execute_action_optimized`
is not under `src/`; it synchronously consumes the engine state and the
request fields and produces a structured value plus the mutated engine).

* `submit` is `RuntimeManager::execute` up to the send (lines 110-124): a
  fresh oneshot channel is created, the command is built around its sender
  and enqueued. It requires a live receiver (some worker exists) and a
  free queue slot (a full bounded channel blocks the sender instead).
* `dequeue` is a worker's `rx_clone.recv()` succeeding (line 70): the
  queue's head moves to an idle worker.
* `finish` is lines 72-85: the worker runs the action on its own engine
  and request fields, writes the result into the command's reply channel
  discarding the outcome, appends a ghost log record, and returns to
  idle.
* `abandon` is the caller dropping its wait on a reply.
* `read` is the caller's `rx.await` resolving with a written value. -/
inductive Step {Engine : Type} (x : Engine → RequestView → JsonValue × Engine) :
    PoolState Engine → Event → PoolState Engine → Prop
  | submit (s : PoolState Engine) (v : RequestView)
      (hconn : s.workers ≠ [])
      (hcap : s.queue.length < s.capacity) :
      Step x s (Event.submit { toRequestView := v, response_tx := s.nextReplyId })
        { s with
          queue := s.queue ++ [{ toRequestView := v, response_tx := s.nextReplyId }]
          replies := fun r => if r = s.nextReplyId then some ReplySt.pending else s.replies r
          nextReplyId := s.nextReplyId + 1 }
  | dequeue (s : PoolState Engine) (w : Nat) (e : Engine) (c : WorkerCommand)
      (rest : List WorkerCommand)
      (hw : s.workers.get? w = some { engine := e, phase := WPhase.idle })
      (hq : s.queue = c :: rest) :
      Step x s (Event.dequeue w c)
        { s with
          queue := rest
          workers := s.workers.set w { engine := e, phase := WPhase.executing c } }
  | finish (s : PoolState Engine) (w : Nat) (e : Engine) (c : WorkerCommand)
      (hw : s.workers.get? w = some { engine := e, phase := WPhase.executing c }) :
      Step x s (Event.finish w c.response_tx)
        { s with
          workers := s.workers.set w { engine := (x e c.toRequestView).2, phase := WPhase.idle }
          replies := fun r =>
            if r = c.response_tx then (s.replies r).map (replyWrite (x e c.toRequestView).1)
            else s.replies r
          log := s.log ++ [{ rid := c.response_tx, worker := w, engineBefore := e,
                             request := c.toRequestView, value := (x e c.toRequestView).1 }] }
  | abandon (s : PoolState Engine) (r : Nat) :
      Step x s (Event.abandon r)
        { s with
          replies := fun r' => if r' = r then (s.replies r').map replyAbandon else s.replies r' }
  | read (s : PoolState Engine) (r : Nat) (v : JsonValue)
      (hr : s.replies r = some (ReplySt.written v)) :
      Step x s (Event.read r v)
        { s with
          replies := fun r' => if r' = r then some (ReplySt.consumed v) else s.replies r' }

/-- Reflexive-transitive closure of `Step`, collecting the event trace in
chronological order (head of the list happens first). -/
inductive Trace {Engine : Type} (x : Engine → RequestView → JsonValue × Engine) :
    PoolState Engine → List Event → PoolState Engine → Prop
  | nil (s : PoolState Engine) : Trace x s [] s
  | cons {s s' s'' : PoolState Engine} {e : Event} {tr : List Event} :
      Step x s e s' → Trace x s' tr s'' → Trace x s (e :: tr) s''

/-- The commands submitted along a trace, in submission order. -/
def submits : List Event → List WorkerCommand :=
  List.filterMap fun e =>
    match e with
    | Event.submit c => some c
    | _ => none

/-- The commands dequeued by workers along a trace, in dequeue order. -/
def deqs : List Event → List WorkerCommand :=
  List.filterMap fun e =>
    match e with
    | Event.dequeue _ c => some c
    | _ => none

/-- Is the event a worker write into reply channel `r`? -/
def isFinishTo (r : Nat) : Event → Bool
  | Event.finish _ rid => decide (rid = r)
  | _ => false

/-- Number of worker writes into reply channel `r` along a trace. -/
def writes (tr : List Event) (r : Nat) : Nat := tr.countP (isFinishTo r)

/-- Is the event a caller read from reply channel `r`? -/
def isReadOf (r : Nat) : Event → Bool
  | Event.read rid _ => decide (rid = r)
  | _ => false

/-- Number of caller reads from reply channel `r` along a trace. -/
def reads (tr : List Event) (r : Nat) : Nat := tr.countP (isReadOf r)

/-- Does the command address reply channel `r`? -/
def ridEq (r : Nat) (c : WorkerCommand) : Bool := decide (c.response_tx = r)

/-- Number of submissions addressed to reply channel `r` along a trace. -/
def csubs (tr : List Event) (r : Nat) : Nat := (submits tr).countP (ridEq r)

/-- Is the worker currently executing a command addressed to `r`? -/
def phaseRid (r : Nat) (wst : WorkerSt Engine) : Bool :=
  match wst.phase with
  | WPhase.executing c => decide (c.response_tx = r)
  | WPhase.idle => false

/-- Number of in-flight commands addressed to reply channel `r`: waiting
in the queue or being executed by some worker. -/
def occ {Engine : Type} (s : PoolState Engine) (r : Nat) : Nat :=
  s.queue.countP (ridEq r) + s.workers.countP (phaseRid r)

/-- 1 when reply channel `r` is in a consumed state, else 0. -/
def consumedCount {Engine : Type} (s : PoolState Engine) (r : Nat) : Nat :=
  match s.replies r with
  | some (ReplySt.consumed _) => 1
  | _ => 0

/-!
Concrete evaluation material: a tiny engine (`Nat` counter), a concrete
action function, and explicit runs of the pool used to evaluate the
theorems below on closed inputs.
-/

/-- A concrete action function for evaluation: returns the action name as
a string value and bumps the engine counter. -/
def demoExec : Nat → RequestView → JsonValue × Nat :=
  fun e v => (JsonValue.str v.action_name, e + 1)

/-- A concrete engine initializer for evaluation. -/
def demoInitW : String → Nat := fun _ => 0

/-- The bytes of `b"hello"`. -/
def demoBody : Option (List Nat) := some [104, 101, 108, 108, 111]

/-- A concrete request with empty collections. -/
def c1view : RequestView :=
  { action_name := "echo", body := demoBody, method := "POST", path := "/run",
    headers := { items := [] }, params := { items := [] }, query := { items := [] } }

/-- The command built for `c1view` with the first fresh reply channel. -/
def c1cmd : WorkerCommand := { toRequestView := c1view, response_tx := 0 }

/-- A complete run of one request on a one-worker pool: submit, dequeue,
execute and write, read. -/
def c1tr : List Event :=
  [Event.submit c1cmd, Event.dequeue 0 c1cmd, Event.finish 0 0,
   Event.read 0 (JsonValue.str "echo")]

/-- The states of the `c1tr` run, step by step. -/
def c1s0 : PoolState Nat := RuntimeManager.new demoInitW "root" 1

/-- State after submitting `c1cmd`. -/
def c1s1 : PoolState Nat :=
  { c1s0 with
    queue := c1s0.queue ++ [{ toRequestView := c1view, response_tx := c1s0.nextReplyId }]
    replies := fun r => if r = c1s0.nextReplyId then some ReplySt.pending else c1s0.replies r
    nextReplyId := c1s0.nextReplyId + 1 }

/-- State after worker 0 dequeues `c1cmd`. -/
def c1s2 : PoolState Nat :=
  { c1s1 with
    queue := []
    workers := c1s1.workers.set 0 { engine := 0, phase := WPhase.executing c1cmd } }

/-- State after worker 0 executes and writes the reply. -/
def c1s3 : PoolState Nat :=
  { c1s2 with
    workers := c1s2.workers.set 0
      { engine := (demoExec 0 c1cmd.toRequestView).2, phase := WPhase.idle }
    replies := fun r =>
      if r = c1cmd.response_tx then (c1s2.replies r).map (replyWrite (demoExec 0 c1cmd.toRequestView).1)
      else c1s2.replies r
    log := c1s2.log ++ [{ rid := c1cmd.response_tx, worker := 0, engineBefore := 0,
                          request := c1cmd.toRequestView, value := (demoExec 0 c1cmd.toRequestView).1 }] }

/-- State after the caller reads the reply. -/
def c1s4 : PoolState Nat :=
  { c1s3 with
    replies := fun r' => if r' = 0 then some (ReplySt.consumed (JsonValue.str "echo"))
      else c1s3.replies r' }

/-- First of two concrete requests for the FIFO run. -/
def c6viewA : RequestView :=
  { action_name := "first", body := none, method := "GET", path := "/a",
    headers := { items := [] }, params := { items := [] }, query := { items := [] } }

/-- Second of two concrete requests for the FIFO run. -/
def c6viewB : RequestView :=
  { action_name := "second", body := none, method := "GET", path := "/b",
    headers := { items := [] }, params := { items := [] }, query := { items := [] } }

/-- The two commands of the FIFO run. -/
def c6cmdA : WorkerCommand := { toRequestView := c6viewA, response_tx := 0 }

/-- Second command of the FIFO run. -/
def c6cmdB : WorkerCommand := { toRequestView := c6viewB, response_tx := 1 }

/-- A run with two waiting requests and a single worker: both are
submitted before any dequeue, and the worker takes them in order. -/
def c6tr : List Event :=
  [Event.submit c6cmdA, Event.submit c6cmdB, Event.dequeue 0 c6cmdA,
   Event.finish 0 0, Event.dequeue 0 c6cmdB]

/-- The states of the `c6tr` run, step by step. -/
def c6s0 : PoolState Nat := RuntimeManager.new demoInitW "root" 1

/-- State after submitting `c6cmdA`. -/
def c6s1 : PoolState Nat :=
  { c6s0 with
    queue := c6s0.queue ++ [{ toRequestView := c6viewA, response_tx := c6s0.nextReplyId }]
    replies := fun r => if r = c6s0.nextReplyId then some ReplySt.pending else c6s0.replies r
    nextReplyId := c6s0.nextReplyId + 1 }

/-- State after submitting `c6cmdB`. -/
def c6s2 : PoolState Nat :=
  { c6s1 with
    queue := c6s1.queue ++ [{ toRequestView := c6viewB, response_tx := c6s1.nextReplyId }]
    replies := fun r => if r = c6s1.nextReplyId then some ReplySt.pending else c6s1.replies r
    nextReplyId := c6s1.nextReplyId + 1 }

/-- State after worker 0 dequeues `c6cmdA`. -/
def c6s3 : PoolState Nat :=
  { c6s2 with
    queue := [c6cmdB]
    workers := c6s2.workers.set 0 { engine := 0, phase := WPhase.executing c6cmdA } }

/-- State after worker 0 finishes `c6cmdA`. -/
def c6s4 : PoolState Nat :=
  { c6s3 with
    workers := c6s3.workers.set 0
      { engine := (demoExec 0 c6cmdA.toRequestView).2, phase := WPhase.idle }
    replies := fun r =>
      if r = c6cmdA.response_tx then (c6s3.replies r).map (replyWrite (demoExec 0 c6cmdA.toRequestView).1)
      else c6s3.replies r
    log := c6s3.log ++ [{ rid := c6cmdA.response_tx, worker := 0, engineBefore := 0,
                          request := c6cmdA.toRequestView, value := (demoExec 0 c6cmdA.toRequestView).1 }] }

/-- State after worker 0 dequeues `c6cmdB`. -/
def c6s5 : PoolState Nat :=
  { c6s4 with
    queue := []
    workers := c6s4.workers.set 0
      { engine := (demoExec 0 c6cmdA.toRequestView).2, phase := WPhase.executing c6cmdB } }

/-- A request whose headers collection has 10 entries, exceeding the
8-item inline threshold of the headers `SmallVec`. -/
def c8view : RequestView :=
  { action_name := "big", body := demoBody, method := "PUT", path := "/h",
    headers := { items := [("h1", "a"), ("h2", "b"), ("h3", "c"), ("h4", "d"), ("h5", "e"),
                           ("h6", "f"), ("h7", "g"), ("h8", "h"), ("h9", "i"), ("h10", "j")] },
    params := { items := [] }, query := { items := [] } }

/-- The command built for `c8view` with the first fresh reply channel. -/
def c8cmd : WorkerCommand := { toRequestView := c8view, response_tx := 0 }

/-- A run delivering the 10-header request to the action function. -/
def c8tr : List Event :=
  [Event.submit c8cmd, Event.dequeue 0 c8cmd, Event.finish 0 0]

/-- The states of the `c8tr` run, step by step. -/
def c8s0 : PoolState Nat := RuntimeManager.new demoInitW "root" 1

/-- State after submitting `c8cmd`. -/
def c8s1 : PoolState Nat :=
  { c8s0 with
    queue := c8s0.queue ++ [{ toRequestView := c8view, response_tx := c8s0.nextReplyId }]
    replies := fun r => if r = c8s0.nextReplyId then some ReplySt.pending else c8s0.replies r
    nextReplyId := c8s0.nextReplyId + 1 }

/-- State after worker 0 dequeues `c8cmd`. -/
def c8s2 : PoolState Nat :=
  { c8s1 with
    queue := []
    workers := c8s1.workers.set 0 { engine := 0, phase := WPhase.executing c8cmd } }

/-- State after worker 0 finishes `c8cmd`. -/
def c8s3 : PoolState Nat :=
  { c8s2 with
    workers := c8s2.workers.set 0
      { engine := (demoExec 0 c8cmd.toRequestView).2, phase := WPhase.idle }
    replies := fun r =>
      if r = c8cmd.response_tx then (c8s2.replies r).map (replyWrite (demoExec 0 c8cmd.toRequestView).1)
      else c8s2.replies r
    log := c8s2.log ++ [{ rid := c8cmd.response_tx, worker := 0, engineBefore := 0,
                          request := c8cmd.toRequestView, value := (demoExec 0 c8cmd.toRequestView).1 }] }

/-- The ghost record produced by the `c8tr` run. -/
def c8rec : ExecRecord Nat :=
  { rid := c8cmd.response_tx, worker := 0, engineBefore := 0,
    request := c8cmd.toRequestView, value := (demoExec 0 c8cmd.toRequestView).1 }

/-- A command held by a worker whose caller has abandoned its wait. -/
def c4cmd : WorkerCommand :=
  { action_name := "slow", body := none, method := "GET", path := "/x",
    headers := { items := [] }, params := { items := [] }, query := { items := [] },
    response_tx := 0 }

/-- A state in which worker 0 is executing `c4cmd` and the reply channel
has been abandoned by its caller. -/
def c4state : PoolState Nat :=
  { capacity := 2000
    queue := []
    nextReplyId := 1
    replies := fun r => if r = 0 then some ReplySt.abandoned else none
    workers := [{ engine := 0, phase := WPhase.executing c4cmd }]
    log := [] }

/-- The master invariant tying a reachable pool state to the ghost trace
that produced it. -/
structure Inv {Engine : Type} (x : Engine → RequestView → JsonValue × Engine)
    (tr : List Event) (s : PoolState Engine) : Prop where
  ids_lt : ∀ c ∈ submits tr, c.response_tx < s.nextReplyId
  ids_nodup : ((submits tr).map WorkerCommand.response_tx).Nodup
  queue_eq : submits tr = deqs tr ++ s.queue
  queue_bound : s.queue.length ≤ s.capacity
  exec_deq : ∀ w e c, s.workers.get? w = some { engine := e, phase := WPhase.executing c } →
    c ∈ deqs tr
  count_eq : ∀ r, csubs tr r = occ s r + writes tr r
  reply_fresh : ∀ r, s.nextReplyId ≤ r → s.replies r = none
  reads_eq : ∀ r, reads tr r = consumedCount s r
  log_sub : ∀ rec ∈ s.log,
    ({ toRequestView := rec.request, response_tx := rec.rid } : WorkerCommand) ∈ submits tr ∧
      rec.value = (x rec.engineBefore rec.request).1
  written_log : ∀ r v,
    s.replies r = some (ReplySt.written v) ∨ s.replies r = some (ReplySt.consumed v) →
      ∃ rec ∈ s.log, rec.rid = r ∧ rec.value = v
  read_log : ∀ r v, Event.read r v ∈ tr → ∃ rec ∈ s.log, rec.rid = r ∧ rec.value = v

section ListHelpers

variable {α : Type}

/-- Reading back the updated index of `List.set`. -/
theorem getq_set_self (l : List α) (w : Nat) (b : α) (h : w < l.length) :
    (l.set w b).get? w = some b := by
  induction l generalizing w with
  | nil => simp at h
  | cons a l ih =>
    cases w with
    | zero => rfl
    | succ w =>
      simp only [List.set, List.get?]
      exact ih w (by simpa using h)

/-- `List.set` leaves every other index unchanged. -/
theorem getq_set_other (l : List α) (w k : Nat) (b : α) (h : w ≠ k) :
    (l.set w b).get? k = l.get? k := by
  induction l generalizing w k with
  | nil => simp
  | cons a l ih =>
    cases w with
    | zero =>
      cases k with
      | zero => exact absurd rfl h
      | succ k => rfl
    | succ w =>
      cases k with
      | zero => rfl
      | succ k =>
        simp only [List.set, List.get?]
        exact ih w k (fun hc => h (by rw [hc]))

/-- Balance equation for `countP` under a single-index update. -/
theorem countP_set_add (l : List α) (w : Nat) (a b : α) (p : α → Bool)
    (h : l.get? w = some a) :
    (l.set w b).countP p + (if p a then 1 else 0) = l.countP p + (if p b then 1 else 0) := by
  induction l generalizing w with
  | nil => simp at h
  | cons c l ih =>
    cases w with
    | zero =>
      have hac : a = c := by simpa using h.symm
      subst hac
      simp only [List.set, List.countP_cons]
      omega
    | succ w =>
      have h' : l.get? w = some a := h
      have := ih w h'
      simp only [List.set, List.countP_cons]
      omega

/-- Case analysis for reading an index of `List.set`. -/
theorem getq_set_cases (l : List α) (w k : Nat) (b c : α)
    (h : (l.set w b).get? k = some c) :
    (k = w ∧ c = b) ∨ (k ≠ w ∧ l.get? k = some c) := by
  by_cases hk : k = w
  · subst hk
    have hlen : k < (l.set k b).length := by
      by_contra hge
      rw [List.get?_eq_none.mpr (Nat.le_of_not_lt hge)] at h
      exact Option.noConfusion h
    rw [List.length_set] at hlen
    rw [getq_set_self l k b hlen] at h
    exact Or.inl ⟨rfl, (Option.some.injEq _ _ ▸ h).symm⟩
  · right
    refine ⟨hk, ?_⟩
    rw [← getq_set_other l w k b (fun hc => hk hc.symm)]
    exact h

/-- If every element of the list has ids strictly below a bound, the count
of commands with id equal to the bound (or beyond) is zero. -/
theorem countP_eq_zero_of_lt (l : List WorkerCommand) (r bound : Nat)
    (hb : ∀ c ∈ l, c.response_tx < bound) (hr : bound ≤ r) :
    l.countP (ridEq r) = 0 := by
  refine List.countP_eq_zero.mpr ?_
  intro c hc
  simp only [ridEq, decide_eq_true_eq]
  intro hcr
  exact absurd (hcr ▸ hb c hc) (Nat.not_lt.mpr hr)

/-- A list whose ids are pairwise distinct has at most one command with
any given id. -/
theorem countP_rid_le_one (l : List WorkerCommand) (r : Nat)
    (h : (l.map WorkerCommand.response_tx).Nodup) :
    l.countP (ridEq r) ≤ 1 := by
  induction l with
  | nil => simp
  | cons c l ih =>
    simp only [List.map_cons, List.nodup_cons] at h
    rw [List.countP_cons]
    by_cases hc : ridEq r c = true
    · have hcr : c.response_tx = r := by simpa [ridEq] using hc
      have hz : l.countP (ridEq r) = 0 := by
        refine List.countP_eq_zero.mpr ?_
        intro d hd
        simp only [ridEq, decide_eq_true_eq]
        intro hdr
        refine h.1 ?_
        rw [hcr, ← hdr]
        exact List.mem_map_of_mem _ hd
      simp [hc, hz]
    · simp only [hc, if_false]
      simpa using ih h.2

end ListHelpers

/-- `c ∈ submits tr` exactly when the trace contains its submission. -/
theorem mem_submits {tr : List Event} {c : WorkerCommand} :
    c ∈ submits tr ↔ Event.submit c ∈ tr := by
  constructor
  · intro h
    rcases List.mem_filterMap.mp h with ⟨e, he, hec⟩
    cases e <;> simp_all [submits]
  · intro h
    refine List.mem_filterMap.mpr ⟨Event.submit c, h, rfl⟩

section TraceFns

@[simp] theorem submits_nil : submits [] = [] := rfl

@[simp] theorem submits_append (tr tr' : List Event) :
    submits (tr ++ tr') = submits tr ++ submits tr' :=
  List.filterMap_append tr tr' _

@[simp] theorem submits_submit (c : WorkerCommand) (tr : List Event) :
    submits (Event.submit c :: tr) = c :: submits tr := rfl

@[simp] theorem submits_dequeue (w : Nat) (c : WorkerCommand) (tr : List Event) :
    submits (Event.dequeue w c :: tr) = submits tr := rfl

@[simp] theorem submits_finish (w rid : Nat) (tr : List Event) :
    submits (Event.finish w rid :: tr) = submits tr := rfl

@[simp] theorem submits_abandon (rid : Nat) (tr : List Event) :
    submits (Event.abandon rid :: tr) = submits tr := rfl

@[simp] theorem submits_read (rid : Nat) (v : JsonValue) (tr : List Event) :
    submits (Event.read rid v :: tr) = submits tr := rfl

@[simp] theorem deqs_nil : deqs [] = [] := rfl

@[simp] theorem deqs_append (tr tr' : List Event) :
    deqs (tr ++ tr') = deqs tr ++ deqs tr' :=
  List.filterMap_append tr tr' _

@[simp] theorem deqs_submit (c : WorkerCommand) (tr : List Event) :
    deqs (Event.submit c :: tr) = deqs tr := rfl

@[simp] theorem deqs_dequeue (w : Nat) (c : WorkerCommand) (tr : List Event) :
    deqs (Event.dequeue w c :: tr) = c :: deqs tr := rfl

@[simp] theorem deqs_finish (w rid : Nat) (tr : List Event) :
    deqs (Event.finish w rid :: tr) = deqs tr := rfl

@[simp] theorem deqs_abandon (rid : Nat) (tr : List Event) :
    deqs (Event.abandon rid :: tr) = deqs tr := rfl

@[simp] theorem deqs_read (rid : Nat) (v : JsonValue) (tr : List Event) :
    deqs (Event.read rid v :: tr) = deqs tr := rfl

@[simp] theorem writes_append (tr tr' : List Event) (r : Nat) :
    writes (tr ++ tr') r = writes tr r + writes tr' r :=
  List.countP_append _ tr tr'

@[simp] theorem writes_nil (r : Nat) : writes [] r = 0 := rfl

theorem writes_single_finish (w rid r : Nat) :
    writes [Event.finish w rid] r = if rid = r then 1 else 0 := by
  simp [writes, List.countP_cons, isFinishTo]

@[simp] theorem writes_single_submit (c : WorkerCommand) (r : Nat) :
    writes [Event.submit c] r = 0 := rfl

@[simp] theorem writes_single_dequeue (w : Nat) (c : WorkerCommand) (r : Nat) :
    writes [Event.dequeue w c] r = 0 := rfl

@[simp] theorem writes_single_abandon (rid r : Nat) :
    writes [Event.abandon rid] r = 0 := rfl

@[simp] theorem writes_single_read (rid : Nat) (v : JsonValue) (r : Nat) :
    writes [Event.read rid v] r = 0 := rfl

@[simp] theorem reads_append (tr tr' : List Event) (r : Nat) :
    reads (tr ++ tr') r = reads tr r + reads tr' r :=
  List.countP_append _ tr tr'

@[simp] theorem reads_nil (r : Nat) : reads [] r = 0 := rfl

theorem reads_single_read (rid : Nat) (v : JsonValue) (r : Nat) :
    reads [Event.read rid v] r = if rid = r then 1 else 0 := by
  simp [reads, List.countP_cons, isReadOf]

@[simp] theorem reads_single_submit (c : WorkerCommand) (r : Nat) :
    reads [Event.submit c] r = 0 := rfl

@[simp] theorem reads_single_dequeue (w : Nat) (c : WorkerCommand) (r : Nat) :
    reads [Event.dequeue w c] r = 0 := rfl

@[simp] theorem reads_single_finish (w rid r : Nat) :
    reads [Event.finish w rid] r = 0 := rfl

@[simp] theorem reads_single_abandon (rid r : Nat) :
    reads [Event.abandon rid] r = 0 := rfl

theorem csubs_append (tr tr' : List Event) (r : Nat) :
    csubs (tr ++ tr') r = csubs tr r + csubs tr' r := by
  simp [csubs, List.countP_append]

end TraceFns

section Invariant

variable {Engine : Type} {x : Engine → RequestView → JsonValue × Engine}

/-- One step of the pool preserves the master invariant (the step's event
is appended to the ghost trace). -/
theorem inv_step {tr : List Event} {s s' : PoolState Engine} {ev : Event}
    (hI : Inv x tr s) (hs : Step x s ev s') : Inv x (tr ++ [ev]) s' := by
  cases hs with
  | submit v hconn hcap =>
    refine
      { ids_lt := ?_, ids_nodup := ?_, queue_eq := ?_, queue_bound := ?_, exec_deq := ?_,
        count_eq := ?_, reply_fresh := ?_, reads_eq := ?_, log_sub := ?_,
        written_log := ?_, read_log := ?_ }
    · intro c hc
      simp only [submits_append, submits_submit, submits_nil] at hc
      rcases List.mem_append.mp hc with h | h
      · exact Nat.lt_succ_of_lt (hI.ids_lt c h)
      · have hc0 : c = { toRequestView := v, response_tx := s.nextReplyId } := by simpa using h
        subst hc0
        exact Nat.lt_succ_self _
    · simp only [submits_append, submits_submit, submits_nil, List.map_append]
      refine List.nodup_append.mpr ⟨hI.ids_nodup, by simp, ?_⟩
      intro a ha hb
      simp only [List.map_cons, List.map_nil, List.mem_singleton] at hb
      rcases List.mem_map.mp ha with ⟨c, hc, rfl⟩
      have := hI.ids_lt c hc
      simp only [hb] at this ⊢
      omega
    · simp only [submits_append, submits_submit, submits_nil, deqs_append, deqs_submit,
        deqs_nil, List.append_nil]
      rw [hI.queue_eq, List.append_assoc]
    · simp only [List.length_append, List.length_cons, List.length_nil]
      omega
    · intro w e c hw
      simp only [deqs_append, deqs_submit, deqs_nil, List.append_nil]
      exact hI.exec_deq w e c hw
    · intro r
      have hold := hI.count_eq r
      simp only [occ] at hold
      rw [csubs_append]
      have h1 : csubs [Event.submit { toRequestView := v, response_tx := s.nextReplyId }] r
          = if s.nextReplyId = r then 1 else 0 := by
        simp [csubs, submits, List.countP_cons, ridEq]
      rw [h1]
      simp only [writes_append, writes_single_submit, Nat.add_zero]
      simp only [occ, List.countP_append]
      have h2 : List.countP (ridEq r) [{ toRequestView := v, response_tx := s.nextReplyId }]
          = if s.nextReplyId = r then 1 else 0 := by
        simp [List.countP_cons, ridEq]
      rw [h2]
      omega
    · intro r hr
      have hr2 : s.nextReplyId + 1 ≤ r := hr
      show (if r = s.nextReplyId then some ReplySt.pending else s.replies r) = none
      rw [if_neg (by omega)]
      exact hI.reply_fresh r (by omega)
    · intro r
      simp only [reads_append, reads_single_submit, Nat.add_zero]
      rcases eq_or_ne r s.nextReplyId with hr | hr
      · subst hr
        have h0 : s.replies s.nextReplyId = none := hI.reply_fresh _ (Nat.le_refl _)
        rw [hI.reads_eq]
        simp [consumedCount, h0]
      · rw [hI.reads_eq]
        simp [consumedCount, hr]
    · intro rec hrec
      have hmem := hI.log_sub rec hrec
      refine ⟨?_, hmem.2⟩
      simp only [submits_append, submits_submit, submits_nil]
      exact List.mem_append_left _ hmem.1
    · intro r v hv
      rcases eq_or_ne r s.nextReplyId with hr | hr
      · simp only [hr, if_true, if_pos rfl] at hv
        rcases hv with hv | hv <;> exact absurd hv (by simp)
      · simp only [if_neg hr] at hv
        exact hI.written_log r v hv
    · intro r v hrv
      rcases List.mem_append.mp hrv with h | h
      · exact hI.read_log r v h
      · simp at h
  | dequeue w e0 c rest hw hq =>
    refine
      { ids_lt := ?_, ids_nodup := ?_, queue_eq := ?_, queue_bound := ?_, exec_deq := ?_,
        count_eq := ?_, reply_fresh := ?_, reads_eq := ?_, log_sub := ?_,
        written_log := ?_, read_log := ?_ }
    · intro c' hc'
      simp only [submits_append, submits_dequeue, submits_nil, List.append_nil] at hc'
      exact hI.ids_lt c' hc'
    · simp only [submits_append, submits_dequeue, submits_nil, List.append_nil]
      exact hI.ids_nodup
    · simp only [submits_append, submits_dequeue, submits_nil, List.append_nil,
        deqs_append, deqs_dequeue, deqs_nil]
      rw [hI.queue_eq, hq, List.append_assoc]
      rfl
    · have := hI.queue_bound
      rw [hq] at this
      simp only [List.length_cons] at this
      simp only []
      omega
    · intro w' e' c' hw'
      simp only [deqs_append, deqs_dequeue, deqs_nil]
      rcases getq_set_cases _ _ _ _ _ hw' with ⟨hww, hval⟩ | ⟨hww, holdv⟩
      · have hcc : c' = c := by
          have := congrArg WorkerSt.phase hval
          simpa using this
        subst hcc
        exact List.mem_append_right _ (by simp)
      · exact List.mem_append_left _ (hI.exec_deq w' e' c' holdv)
    · intro r
      have hold := hI.count_eq r
      simp only [occ] at hold
      have hW := countP_set_add s.workers w _ { engine := e0, phase := WPhase.executing c }
        (phaseRid r) hw
      simp only [phaseRid] at hW
      have hQ : s.queue.countP (ridEq r) = rest.countP (ridEq r)
          + (if c.response_tx = r then 1 else 0) := by
        rw [hq, List.countP_cons]
        simp [ridEq]
      have hW2 : (s.workers.set w { engine := e0, phase := WPhase.executing c }).countP (phaseRid r)
          = s.workers.countP (phaseRid r) + (if c.response_tx = r then 1 else 0) := by
        simpa using hW
      rw [csubs_append]
      have hz : csubs [Event.dequeue w c] r = 0 := by simp [csubs, submits]
      rw [hz]
      simp only [writes_append, writes_single_dequeue, Nat.add_zero]
      simp only [occ]
      omega
    · intro r hr
      exact hI.reply_fresh r hr
    · intro r
      simp only [reads_append, reads_single_dequeue, Nat.add_zero]
      exact hI.reads_eq r
    · intro rec hrec
      have hmem := hI.log_sub rec hrec
      refine ⟨?_, hmem.2⟩
      simp only [submits_append, submits_dequeue, submits_nil, List.append_nil]
      exact hmem.1
    · intro r v hv
      exact hI.written_log r v hv
    · intro r v hrv
      rcases List.mem_append.mp hrv with h | h
      · exact hI.read_log r v h
      · simp at h
  | finish w e0 c hw =>
    refine
      { ids_lt := ?_, ids_nodup := ?_, queue_eq := ?_, queue_bound := ?_, exec_deq := ?_,
        count_eq := ?_, reply_fresh := ?_, reads_eq := ?_, log_sub := ?_,
        written_log := ?_, read_log := ?_ }
    · intro c' hc'
      simp only [submits_append, submits_finish, submits_nil, List.append_nil] at hc'
      exact hI.ids_lt c' hc'
    · simp only [submits_append, submits_finish, submits_nil, List.append_nil]
      exact hI.ids_nodup
    · simp only [submits_append, submits_finish, submits_nil, List.append_nil,
        deqs_append, deqs_finish, deqs_nil]
      exact hI.queue_eq
    · exact hI.queue_bound
    · intro w' e' c' hw'
      simp only [deqs_append, deqs_finish, deqs_nil, List.append_nil]
      rcases getq_set_cases _ _ _ _ _ hw' with ⟨hww, hval⟩ | ⟨hww, holdv⟩
      · exfalso
        have := congrArg WorkerSt.phase hval
        simp at this
      · exact hI.exec_deq w' e' c' holdv
    · intro r
      have hold := hI.count_eq r
      simp only [occ] at hold
      have hW := countP_set_add s.workers w _
        { engine := (x e0 c.toRequestView).2, phase := WPhase.idle } (phaseRid r) hw
      simp only [phaseRid] at hW
      have hW2 : (s.workers.set w
            { engine := (x e0 c.toRequestView).2, phase := WPhase.idle }).countP (phaseRid r)
          + (if c.response_tx = r then 1 else 0) = s.workers.countP (phaseRid r) := by
        simpa using hW
      rw [csubs_append]
      have hz : csubs [Event.finish w c.response_tx] r = 0 := by simp [csubs, submits]
      rw [hz]
      simp only [writes_append, occ]
      rw [writes_single_finish]
      omega
    · intro r hr
      have hfresh := hI.reply_fresh r hr
      show (if r = c.response_tx then (s.replies r).map _ else s.replies r) = none
      rcases eq_or_ne r c.response_tx with hrc | hrc
      · rw [if_pos hrc, hfresh]
        rfl
      · rw [if_neg hrc]
        exact hfresh
    · intro r
      simp only [reads_append, reads_single_finish, Nat.add_zero]
      rw [hI.reads_eq r]
      rcases eq_or_ne r c.response_tx with hrc | hrc
      · simp only [consumedCount, hrc, if_pos rfl]
        cases hrep : s.replies c.response_tx with
        | none => rfl
        | some st => cases st <;> rfl
      · simp only [consumedCount, if_neg hrc]
    · intro rec hrec
      simp only [submits_append, submits_finish, submits_nil, List.append_nil]
      rcases List.mem_append.mp hrec with h | h
      · exact hI.log_sub rec h
      · have hrc : rec = ExecRecord.mk c.response_tx w e0 c.toRequestView (x e0 c.toRequestView).1 := by
          simpa using h
        subst hrc
        refine ⟨?_, rfl⟩
        have hcmem : c ∈ deqs tr := hI.exec_deq w e0 c hw
        have : c ∈ submits tr := by
          rw [hI.queue_eq]
          exact List.mem_append_left _ hcmem
        simpa using this
    · intro r v hv
      rcases eq_or_ne r c.response_tx with hrc | hrc
      · simp only [if_pos hrc] at hv
        cases hrep : s.replies r with
        | none =>
          rw [hrep] at hv
          have hv2 : (none : Option ReplySt) = some (ReplySt.written v) ∨
              (none : Option ReplySt) = some (ReplySt.consumed v) := hv
          rcases hv2 with h | h <;> exact Option.noConfusion h
        | some st =>
          rw [hrep] at hv
          cases st with
          | pending =>
            have hv2 : some (ReplySt.written (x e0 c.toRequestView).1) = some (ReplySt.written v) ∨
                some (ReplySt.written (x e0 c.toRequestView).1) = some (ReplySt.consumed v) := hv
            rcases hv2 with h | h
            · have hvv : (x e0 c.toRequestView).1 = v := by simpa using h
              exact ⟨ExecRecord.mk c.response_tx w e0 c.toRequestView (x e0 c.toRequestView).1,
                List.mem_append_right _ (by simp), hrc.symm, hvv⟩
            · exact absurd h (by simp)
          | abandoned =>
            have hv2 : some ReplySt.discarded = some (ReplySt.written v) ∨
                some ReplySt.discarded = some (ReplySt.consumed v) := hv
            rcases hv2 with h | h <;> exact absurd h (by simp)
          | written u =>
            have hv2 : some (ReplySt.written u) = some (ReplySt.written v) ∨
                some (ReplySt.written u) = some (ReplySt.consumed v) := hv
            rcases hv2 with h | h
            · have huv : u = v := by simpa using h
              subst huv
              rcases hI.written_log r u (Or.inl hrep) with ⟨rec, hrl, hrid, hrv⟩
              exact ⟨rec, List.mem_append_left _ hrl, hrid, hrv⟩
            · exact absurd h (by simp)
          | discarded =>
            have hv2 : some ReplySt.discarded = some (ReplySt.written v) ∨
                some ReplySt.discarded = some (ReplySt.consumed v) := hv
            rcases hv2 with h | h <;> exact absurd h (by simp)
          | consumed u =>
            have hv2 : some (ReplySt.consumed u) = some (ReplySt.written v) ∨
                some (ReplySt.consumed u) = some (ReplySt.consumed v) := hv
            rcases hv2 with h | h
            · exact absurd h (by simp)
            · have huv : u = v := by simpa using h
              subst huv
              rcases hI.written_log r u (Or.inr hrep) with ⟨rec, hrl, hrid, hrv⟩
              exact ⟨rec, List.mem_append_left _ hrl, hrid, hrv⟩
      · simp only [if_neg hrc] at hv
        rcases hI.written_log r v hv with ⟨rec, hrl, hrid, hrv⟩
        exact ⟨rec, List.mem_append_left _ hrl, hrid, hrv⟩
    · intro r v hrv
      rcases List.mem_append.mp hrv with h | h
      · rcases hI.read_log r v h with ⟨rec, hrl, hrid, hrv'⟩
        exact ⟨rec, List.mem_append_left _ hrl, hrid, hrv'⟩
      · simp at h
  | abandon r0 =>
    refine
      { ids_lt := ?_, ids_nodup := ?_, queue_eq := ?_, queue_bound := ?_, exec_deq := ?_,
        count_eq := ?_, reply_fresh := ?_, reads_eq := ?_, log_sub := ?_,
        written_log := ?_, read_log := ?_ }
    · intro c' hc'
      simp only [submits_append, submits_abandon, submits_nil, List.append_nil] at hc'
      exact hI.ids_lt c' hc'
    · simp only [submits_append, submits_abandon, submits_nil, List.append_nil]
      exact hI.ids_nodup
    · simp only [submits_append, submits_abandon, submits_nil, List.append_nil,
        deqs_append, deqs_abandon, deqs_nil]
      exact hI.queue_eq
    · exact hI.queue_bound
    · intro w' e' c' hw'
      simp only [deqs_append, deqs_abandon, deqs_nil, List.append_nil]
      exact hI.exec_deq w' e' c' hw'
    · intro r
      have hold := hI.count_eq r
      simp only [csubs_append, writes_append, writes_single_abandon, Nat.add_zero] at hold ⊢
      have hz : csubs [Event.abandon r0] r = 0 := by simp [csubs, submits]
      rw [hz]
      simp only [occ] at hold ⊢
      omega
    · intro r hr
      have hfresh := hI.reply_fresh r hr
      show (if r = r0 then (s.replies r).map replyAbandon else s.replies r) = none
      rcases eq_or_ne r r0 with hrc | hrc
      · rw [if_pos hrc, hfresh]
        rfl
      · rw [if_neg hrc]
        exact hfresh
    · intro r
      simp only [reads_append, reads_single_abandon, Nat.add_zero]
      rw [hI.reads_eq r]
      rcases eq_or_ne r r0 with hrc | hrc
      · simp only [consumedCount, if_pos hrc]
        cases hrep : s.replies r with
        | none => rfl
        | some st => cases st <;> rfl
      · simp only [consumedCount, if_neg hrc]
    · intro rec hrec
      have hmem := hI.log_sub rec hrec
      refine ⟨?_, hmem.2⟩
      simp only [submits_append, submits_abandon, submits_nil, List.append_nil]
      exact hmem.1
    · intro r v hv
      rcases eq_or_ne r r0 with hrc | hrc
      · simp only [if_pos hrc] at hv
        cases hrep : s.replies r with
        | none =>
          rw [hrep] at hv
          have hv2 : (none : Option ReplySt) = some (ReplySt.written v) ∨
              (none : Option ReplySt) = some (ReplySt.consumed v) := hv
          rcases hv2 with h | h <;> exact Option.noConfusion h
        | some st =>
          rw [hrep] at hv
          cases st with
          | pending =>
            have hv2 : some ReplySt.abandoned = some (ReplySt.written v) ∨
                some ReplySt.abandoned = some (ReplySt.consumed v) := hv
            rcases hv2 with h | h <;> exact absurd h (by simp)
          | abandoned =>
            have hv2 : some ReplySt.abandoned = some (ReplySt.written v) ∨
                some ReplySt.abandoned = some (ReplySt.consumed v) := hv
            rcases hv2 with h | h <;> exact absurd h (by simp)
          | written u =>
            have hv2 : some ReplySt.discarded = some (ReplySt.written v) ∨
                some ReplySt.discarded = some (ReplySt.consumed v) := hv
            rcases hv2 with h | h <;> exact absurd h (by simp)
          | discarded =>
            have hv2 : some ReplySt.discarded = some (ReplySt.written v) ∨
                some ReplySt.discarded = some (ReplySt.consumed v) := hv
            rcases hv2 with h | h <;> exact absurd h (by simp)
          | consumed u =>
            have hv2 : some (ReplySt.consumed u) = some (ReplySt.written v) ∨
                some (ReplySt.consumed u) = some (ReplySt.consumed v) := hv
            rcases hv2 with h | h
            · exact absurd h (by simp)
            · have huv : u = v := by simpa using h
              subst huv
              exact hI.written_log r u (Or.inr hrep)
      · simp only [if_neg hrc] at hv
        exact hI.written_log r v hv
    · intro r v hrv
      rcases List.mem_append.mp hrv with h | h
      · exact hI.read_log r v h
      · simp at h
  | read r0 v0 hrd =>
    refine
      { ids_lt := ?_, ids_nodup := ?_, queue_eq := ?_, queue_bound := ?_, exec_deq := ?_,
        count_eq := ?_, reply_fresh := ?_, reads_eq := ?_, log_sub := ?_,
        written_log := ?_, read_log := ?_ }
    · intro c' hc'
      simp only [submits_append, submits_read, submits_nil, List.append_nil] at hc'
      exact hI.ids_lt c' hc'
    · simp only [submits_append, submits_read, submits_nil, List.append_nil]
      exact hI.ids_nodup
    · simp only [submits_append, submits_read, submits_nil, List.append_nil,
        deqs_append, deqs_read, deqs_nil]
      exact hI.queue_eq
    · exact hI.queue_bound
    · intro w' e' c' hw'
      simp only [deqs_append, deqs_read, deqs_nil, List.append_nil]
      exact hI.exec_deq w' e' c' hw'
    · intro r
      have hold := hI.count_eq r
      simp only [csubs_append, writes_append, writes_single_read, Nat.add_zero] at hold ⊢
      have hz : csubs [Event.read r0 v0] r = 0 := by simp [csubs, submits]
      rw [hz]
      simp only [occ] at hold ⊢
      omega
    · intro r hr
      have hfresh := hI.reply_fresh r hr
      show (if r = r0 then some (ReplySt.consumed v0) else s.replies r) = none
      rcases eq_or_ne r r0 with hrc | hrc
      · exfalso
        rw [hrc] at hfresh
        rw [hfresh] at hrd
        exact Option.noConfusion hrd
      · rw [if_neg hrc]
        exact hfresh
    · intro r
      simp only [reads_append, reads_single_read]
      rw [hI.reads_eq r]
      rcases eq_or_ne r r0 with hrc | hrc
      · have hr0 : r0 = r := hrc.symm
        subst hr0
        simp [consumedCount, hrd]
      · rw [if_neg (fun hc => hrc hc.symm)]
        simp only [consumedCount, if_neg hrc, Nat.add_zero]
    · intro rec hrec
      have hmem := hI.log_sub rec hrec
      refine ⟨?_, hmem.2⟩
      simp only [submits_append, submits_read, submits_nil, List.append_nil]
      exact hmem.1
    · intro r v hv
      rcases eq_or_ne r r0 with hrc | hrc
      · simp only [if_pos hrc] at hv
        rcases hv with hv | hv
        · exact absurd hv (by simp)
        · have hvv : v0 = v := by simpa using hv
          rw [← hvv, hrc]
          exact hI.written_log r0 v0 (Or.inl hrd)
      · simp only [if_neg hrc] at hv
        exact hI.written_log r v hv
    · intro r v hrv
      rcases List.mem_append.mp hrv with h | h
      · exact hI.read_log r v h
      · have hev : r = r0 ∧ v = v0 := by simpa using h
        rw [hev.1, hev.2]
        exact hI.written_log r0 v0 (Or.inl hrd)

/-- The freshly constructed pool satisfies the invariant with the empty
trace. -/
theorem inv_init (init_runtime_worker : String → Engine) (project_root : String)
    (num_threads : Nat) :
    Inv x [] (RuntimeManager.new init_runtime_worker project_root num_threads) := by
  refine
    { ids_lt := ?_, ids_nodup := ?_, queue_eq := ?_, queue_bound := ?_, exec_deq := ?_,
      count_eq := ?_, reply_fresh := ?_, reads_eq := ?_, log_sub := ?_,
      written_log := ?_, read_log := ?_ }
  · intro c hc
    simp [submits] at hc
  · simp
  · rfl
  · simp [RuntimeManager.new]
  · intro w e c hw
    exfalso
    have hmem := List.get?_mem hw
    simp only [RuntimeManager.new] at hmem
    rcases List.mem_map.mp hmem with ⟨i, _, hi⟩
    have := congrArg WorkerSt.phase hi
    simp at this
  · intro r
    have hz : List.countP (phaseRid r)
        (List.replicate num_threads
          ({ engine := init_runtime_worker project_root, phase := WPhase.idle } : WorkerSt Engine)) = 0 := by
      refine List.countP_eq_zero.mpr ?_
      intro wst hmem
      rw [List.eq_of_mem_replicate hmem]
      simp [phaseRid]
    simp [csubs, submits, occ, writes, RuntimeManager.new, hz]
  · intro r _
    rfl
  · intro r
    rfl
  · intro rec hrec
    simp [RuntimeManager.new] at hrec
  · intro r v hv
    rcases hv with hv | hv <;> exact Option.noConfusion hv
  · intro r v hrv
    simp at hrv

/-- The invariant is preserved along any trace segment, accumulating the
events. -/
theorem inv_trace {s s' : PoolState Engine} {tr2 : List Event}
    (htr : Trace x s tr2 s') : ∀ tr, Inv x tr s → Inv x (tr ++ tr2) s' := by
  induction htr with
  | nil s => intro tr h; simpa using h
  | cons hstep _ ih =>
    intro tr h
    have h1 := inv_step h hstep
    have h2 := ih _ h1
    simpa [List.append_assoc] using h2

/-- Every state reachable from a fresh pool satisfies the invariant for
the trace that reached it. -/
theorem inv_reach {init_runtime_worker : String → Engine} {project_root : String}
    {num_threads : Nat} {tr : List Event} {s : PoolState Engine}
    (htr : Trace x (RuntimeManager.new init_runtime_worker project_root num_threads) tr s) :
    Inv x tr s := by
  have := inv_trace htr [] (inv_init init_runtime_worker project_root num_threads)
  simpa using this

end Invariant

/-- In a list of commands with pairwise-distinct reply ids, a reply id
determines the command. -/
theorem eq_of_mem_of_nodup_rid :
    ∀ (l : List WorkerCommand), (l.map WorkerCommand.response_tx).Nodup →
      ∀ c1 c2, c1 ∈ l → c2 ∈ l → c1.response_tx = c2.response_tx → c1 = c2 := by
  intro l hnd c1 c2 h1 h2 hr
  induction l with
  | nil => simp at h1
  | cons c cs ih =>
    simp only [List.map_cons, List.nodup_cons] at hnd
    rcases List.mem_cons.mp h1 with rfl | h1t
    · rcases List.mem_cons.mp h2 with rfl | h2t
      · rfl
      · exfalso
        refine hnd.1 ?_
        rw [hr]
        exact List.mem_map_of_mem _ h2t
    · rcases List.mem_cons.mp h2 with rfl | h2t
      · exfalso
        refine hnd.1 ?_
        rw [← hr]
        exact List.mem_map_of_mem _ h1t
      · exact ih hnd.2 h1t h2t

/-- The one-request run `c1tr` is a genuine trace of the pool semantics. -/
theorem demoTraceOne : Trace demoExec c1s0 c1tr c1s4 := by
  refine Trace.cons (Step.submit c1s0 c1view (by decide) (by decide)) ?_
  refine Trace.cons (Step.dequeue c1s1 0 0 c1cmd [] rfl rfl) ?_
  refine Trace.cons (Step.finish c1s2 0 0 c1cmd rfl) ?_
  exact Trace.cons (Step.read c1s3 0 (JsonValue.str "echo") rfl) (Trace.nil c1s4)

/-- The two-request FIFO run `c6tr` is a genuine trace of the pool
semantics. -/
theorem demoTraceFifo : Trace demoExec c6s0 c6tr c6s5 := by
  refine Trace.cons (Step.submit c6s0 c6viewA (by decide) (by decide)) ?_
  refine Trace.cons (Step.submit c6s1 c6viewB (by decide) (by decide)) ?_
  refine Trace.cons (Step.dequeue c6s2 0 0 c6cmdA [c6cmdB] rfl rfl) ?_
  refine Trace.cons (Step.finish c6s3 0 0 c6cmdA rfl) ?_
  exact Trace.cons (Step.dequeue c6s4 0 1 c6cmdB [] rfl rfl) (Trace.nil c6s5)

/-- The 10-header run `c8tr` is a genuine trace of the pool semantics. -/
theorem demoTraceHeaders : Trace demoExec c8s0 c8tr c8s3 := by
  refine Trace.cons (Step.submit c8s0 c8view (by decide) (by decide)) ?_
  refine Trace.cons (Step.dequeue c8s1 0 0 c8cmd [] rfl rfl) ?_
  exact Trace.cons (Step.finish c8s2 0 0 c8cmd rfl) (Trace.nil c8s3)

/-- C5: the dispatch queue built by `new(root_context, num_threads)` has
bounded capacity `num_threads * 2000`; in particular a pool of 2 workers
yields capacity 4000 (and 2 worker threads). -/
theorem queue_capacity_eq {Engine : Type} (init_runtime_worker : String → Engine)
    (project_root : String) (num_threads : Nat) :
    (RuntimeManager.new init_runtime_worker project_root num_threads).capacity
        = num_threads * 2000 ∧
      (RuntimeManager.new init_runtime_worker project_root 2).capacity = 4000 ∧
      (RuntimeManager.new init_runtime_worker project_root 2).workers.length = 2 :=
  ⟨rfl, rfl, by simp [RuntimeManager.new]⟩

/-- C2: `execute` returns an error if and only if either the dispatch
queue is disconnected at submission time (reported as the stringified
send error) or the reply channel is dropped without a result (reported as
the distinct completion error); both are ordinary `Except.error` values
of the total function `RuntimeManager.execute`, so neither terminates the
process. -/
theorem execute_error_iff {Engine : Type} (s : PoolState Engine)
    (reply : Option WorkerResult) :
    ((∃ v, RuntimeManager.execute s reply = Except.ok v) ↔
        s.workers.isEmpty = false ∧ reply ≠ none) ∧
      (s.workers.isEmpty = true →
        RuntimeManager.execute s reply = Except.error dispatchErrorMsg) ∧
      (s.workers.isEmpty = false → reply = none →
        RuntimeManager.execute s reply = Except.error completionErrorMsg) ∧
      dispatchErrorMsg ≠ completionErrorMsg := by
  unfold RuntimeManager.execute
  cases hw : s.workers.isEmpty <;> cases reply <;>
    simp [dispatchErrorMsg, completionErrorMsg]

/-- C2 witness: on a pool with no workers the call is a dispatch failure,
and the two error values are distinct. -/
theorem execute_error_iff_witness :
    (RuntimeManager.execute (RuntimeManager.new demoInitW "root" 0) none
        = Except.error dispatchErrorMsg) ∧
      dispatchErrorMsg ≠ completionErrorMsg :=
  ⟨(execute_error_iff (RuntimeManager.new demoInitW "root" 0) none).2.1 rfl,
   (execute_error_iff (RuntimeManager.new demoInitW "root" 0) none).2.2.2⟩

/-- C10: with `num_threads = 0` no worker is spawned, every receive side
is gone, and every call to `execute` is an immediate dispatch failure (the
reply is never awaited: the error is returned for every possible reply
outcome); no submit step exists from that state. -/
theorem zero_workers_dispatch_failure {Engine : Type}
    (x : Engine → RequestView → JsonValue × Engine)
    (init_runtime_worker : String → Engine) (project_root : String) :
    (RuntimeManager.new init_runtime_worker project_root 0).workers = [] ∧
      (∀ reply : Option WorkerResult,
        RuntimeManager.execute (RuntimeManager.new init_runtime_worker project_root 0) reply
          = Except.error dispatchErrorMsg) ∧
      ∀ (c : WorkerCommand) (s' : PoolState Engine),
        ¬ Step x (RuntimeManager.new init_runtime_worker project_root 0) (Event.submit c) s' := by
  refine ⟨by simp [RuntimeManager.new], fun reply => rfl, ?_⟩
  intro c s' hstep
  cases hstep with
  | submit v hconn hcap => exact hconn (by simp [RuntimeManager.new])

/-- C10 witness: instance of the zero-worker dispatch failure at a
concrete initializer. -/
theorem zero_workers_dispatch_failure_witness :
    (RuntimeManager.new demoInitW "root" 0).workers = ([] : List (WorkerSt Nat)) ∧
      RuntimeManager.execute (RuntimeManager.new demoInitW "root" 0) none
        = Except.error dispatchErrorMsg :=
  ⟨(zero_workers_dispatch_failure demoExec demoInitW "root").1,
   (zero_workers_dispatch_failure demoExec demoInitW "root").2.1 none⟩

/-- C7 (spec-modelled): engine initialization failure for any worker
thread during pool construction aborts startup: `newChecked` yields no
manager exactly when some thread's initializer fails. -/
theorem init_failure_aborts_startup {Engine : Type}
    (init_worker : Nat → String → Option Engine) (project_root : String)
    (num_threads : Nat) :
    RuntimeManager.newChecked init_worker project_root num_threads = none ↔
      ∃ i < num_threads, init_worker i project_root = none := by
  have hgen : ∀ l : List Nat,
      initAllWorkers init_worker project_root l = none ↔
        ∃ i ∈ l, init_worker i project_root = none := by
    intro l
    induction l with
    | nil => simp [initAllWorkers]
    | cons i is ih =>
      simp only [initAllWorkers]
      cases hi : init_worker i project_root with
      | none =>
        constructor
        · intro _
          exact ⟨i, List.mem_cons_self _ _, hi⟩
        · intro _
          rfl
      | some e =>
        cases hrec : initAllWorkers init_worker project_root is with
        | none =>
          constructor
          · intro _
            rcases ih.mp hrec with ⟨j, hj, hjn⟩
            exact ⟨j, List.mem_cons_of_mem _ hj, hjn⟩
          · intro _
            rfl
        | some es =>
          constructor
          · intro h
            exact Option.noConfusion h
          · rintro ⟨j, hj, hjn⟩
            rcases List.mem_cons.mp hj with rfl | hj2
            · rw [hjn] at hi
              exact Option.noConfusion hi
            · have := ih.mpr ⟨j, hj2, hjn⟩
              rw [this] at hrec
              exact Option.noConfusion hrec
  unfold RuntimeManager.newChecked
  cases hall : initAllWorkers init_worker project_root (List.range num_threads) with
  | none =>
    simp only [iff_true_intro rfl, true_iff]
    rcases (hgen _).mp hall with ⟨i, hi, hin⟩
    exact ⟨i, List.mem_range.mp hi, hin⟩
  | some es =>
    constructor
    · intro h
      exact Option.noConfusion h
    · rintro ⟨i, hi, hin⟩
      have := (hgen (List.range num_threads)).mpr ⟨i, List.mem_range.mpr hi, hin⟩
      rw [this] at hall
      exact Option.noConfusion hall

/-- C7 witness: a pool whose single worker fails to initialize yields no
manager. -/
theorem init_failure_aborts_startup_witness :
    RuntimeManager.newChecked (fun _ _ => (none : Option Nat)) "root" 1 = none :=
  (init_failure_aborts_startup (fun _ _ => (none : Option Nat)) "root" 1).mpr
    ⟨0, Nat.zero_lt_one, rfl⟩

/-- C4: a worker holding a command whose caller has abandoned the reply
channel can always take its write step: the write is discarded (the
channel becomes `discarded`, nothing fails or blocks) and the worker
returns to idle with its updated engine, ready for the next iteration. -/
theorem worker_write_abandoned_ok {Engine : Type}
    (x : Engine → RequestView → JsonValue × Engine) (s : PoolState Engine)
    (w : Nat) (e : Engine) (c : WorkerCommand)
    (hw : s.workers.get? w = some { engine := e, phase := WPhase.executing c })
    (hr : s.replies c.response_tx = some ReplySt.abandoned) :
    ∃ s', Step x s (Event.finish w c.response_tx) s' ∧
      s'.workers.get? w = some { engine := (x e c.toRequestView).2, phase := WPhase.idle } ∧
      s'.replies c.response_tx = some ReplySt.discarded := by
  refine ⟨_, Step.finish s w e c hw, ?_, ?_⟩
  · have hlen : w < s.workers.length := by
      by_contra hge
      rw [List.get?_eq_none.mpr (Nat.le_of_not_lt hge)] at hw
      exact Option.noConfusion hw
    exact getq_set_self _ _ _ hlen
  · show (if c.response_tx = c.response_tx
        then (s.replies c.response_tx).map (replyWrite (x e c.toRequestView).1)
        else s.replies c.response_tx) = some ReplySt.discarded
    rw [if_pos rfl, hr]
    rfl

/-- C4 witness: the abandoned-caller write step at a concrete state. -/
theorem worker_write_abandoned_ok_witness :
    ∃ s', Step demoExec c4state (Event.finish 0 c4cmd.response_tx) s' ∧
      s'.workers.get? 0 = some { engine := (demoExec 0 c4cmd.toRequestView).2, phase := WPhase.idle } ∧
      s'.replies c4cmd.response_tx = some ReplySt.discarded :=
  worker_write_abandoned_ok demoExec c4state 0 0 c4cmd rfl rfl

/-- C9: a worker's slot (engine and phase) changes only through events
acted by that worker: along any trace containing no dequeue or completion
by worker `k`, worker `k`'s engine state is untouched. Submissions,
abandons and reads never touch any engine. -/
theorem engine_isolation {Engine : Type}
    (x : Engine → RequestView → JsonValue × Engine)
    {s s' : PoolState Engine} {tr : List Event}
    (htr : Trace x s tr s') (k : Nat) :
    (∀ ev ∈ tr, actingWorker ev ≠ some k) →
      s'.workers.get? k = s.workers.get? k := by
  induction htr with
  | nil s => intro _; rfl
  | cons hstep htr2 ih =>
    intro hk
    have hk2 : ∀ ev' ∈ _, actingWorker ev' ≠ some k :=
      fun ev' h => hk ev' (List.mem_cons_of_mem _ h)
    rw [ih hk2]
    cases hstep with
    | submit v hconn hcap => rfl
    | dequeue w e0 c rest hw hq =>
      have hne : w ≠ k := by
        intro hwk
        exact hk _ (List.mem_cons_self _ _) (by simp [actingWorker, hwk])
      exact getq_set_other _ _ _ _ hne
    | finish w e0 c hw =>
      have hne : w ≠ k := by
        intro hwk
        exact hk _ (List.mem_cons_self _ _) (by simp [actingWorker, hwk])
      exact getq_set_other _ _ _ _ hne
    | abandon r0 => rfl
    | read r0 v0 hrd => rfl

/-- C9 witness: along the complete one-request run, worker index 5 (not
present in the pool) is untouched. -/
theorem engine_isolation_witness : c1s4.workers.get? 5 = c1s0.workers.get? 5 :=
  engine_isolation demoExec demoTraceOne 5 (by
    intro ev hev
    simp only [c1tr, List.mem_cons, List.not_mem_nil, or_false] at hev
    rcases hev with rfl | rfl | rfl | rfl <;> simp [actingWorker])

/-- C1: whenever a caller's read resolves with value `v` on reply channel
`r`, the ghost log holds the execution record for `r`: `v` is exactly the
result of the opaque action function applied to the executing worker's
engine and the very request fields that were submitted for `r`, passed
through unchanged in both directions. -/
theorem execute_returns_action_result {Engine : Type}
    (x : Engine → RequestView → JsonValue × Engine)
    {init_runtime_worker : String → Engine} {project_root : String}
    {num_threads : Nat} {tr : List Event} {s : PoolState Engine}
    {r : Nat} {v : JsonValue}
    (htr : Trace x (RuntimeManager.new init_runtime_worker project_root num_threads) tr s)
    (hread : Event.read r v ∈ tr) :
    ∃ rec ∈ s.log, rec.rid = r ∧ rec.value = v ∧
      rec.value = (x rec.engineBefore rec.request).1 ∧
      Event.submit { toRequestView := rec.request, response_tx := r } ∈ tr := by
  have hI := inv_reach htr
  rcases hI.read_log r v hread with ⟨rec, hrl, hrid, hrv⟩
  have hsub := hI.log_sub rec hrl
  refine ⟨rec, hrl, hrid, hrv, hsub.2, ?_⟩
  have hmem := hsub.1
  rw [hrid] at hmem
  exact mem_submits.mp hmem

/-- C1 witness: in the one-request run, the value read equals the action
function's output on the submitted request. -/
theorem execute_returns_action_result_witness :
    ∃ rec ∈ c1s4.log, rec.rid = 0 ∧ rec.value = JsonValue.str "echo" ∧
      rec.value = (demoExec rec.engineBefore rec.request).1 ∧
      Event.submit { toRequestView := rec.request, response_tx := 0 } ∈ c1tr :=
  execute_returns_action_result demoExec demoTraceOne
    (List.Mem.tail _ (List.Mem.tail _ (List.Mem.tail _ (List.Mem.head _))))

/-- C3: along any trace of a fresh pool, submissions carry pairwise
distinct fresh reply channels, each channel is written by a worker at
most once and read by its caller at most once. -/
theorem reply_handle_once {Engine : Type}
    (x : Engine → RequestView → JsonValue × Engine)
    {init_runtime_worker : String → Engine} {project_root : String}
    {num_threads : Nat} {tr : List Event} {s : PoolState Engine}
    (htr : Trace x (RuntimeManager.new init_runtime_worker project_root num_threads) tr s) :
    ((submits tr).map WorkerCommand.response_tx).Nodup ∧
      ∀ r, writes tr r ≤ 1 ∧ reads tr r ≤ 1 := by
  have hI := inv_reach htr
  refine ⟨hI.ids_nodup, fun r => ⟨?_, ?_⟩⟩
  · have hc := hI.count_eq r
    have hle := countP_rid_le_one (submits tr) r hI.ids_nodup
    simp only [csubs] at hc
    omega
  · rw [hI.reads_eq r]
    unfold consumedCount
    cases hrep : s.replies r with
    | none => exact Nat.zero_le 1
    | some st => cases st <;> simp

/-- C3 witness: handle uniqueness and at-most-once write/read on the
complete one-request run. -/
theorem reply_handle_once_witness :
    ((submits c1tr).map WorkerCommand.response_tx).Nodup ∧
      ∀ r, writes c1tr r ≤ 1 ∧ reads c1tr r ≤ 1 :=
  reply_handle_once demoExec demoTraceOne

/-- C6: descriptors leave the dispatch queue in strict FIFO order and are
never split or merged: the dequeued commands are exactly an initial
segment of the submitted commands, so of two requests submitted in order
`a` then `b`, if `b` has been dequeued then `a` was dequeued strictly
before it (same positions). -/
theorem dispatch_fifo {Engine : Type}
    (x : Engine → RequestView → JsonValue × Engine)
    {init_runtime_worker : String → Engine} {project_root : String}
    {num_threads : Nat} {tr : List Event} {s : PoolState Engine}
    (htr : Trace x (RuntimeManager.new init_runtime_worker project_root num_threads) tr s) :
    deqs tr ++ s.queue = submits tr ∧
      ∀ i j a b, i < j → (submits tr).get? i = some a → (submits tr).get? j = some b →
        b ∈ deqs tr → (deqs tr).get? i = some a ∧ (deqs tr).get? j = some b := by
  have hI := inv_reach htr
  have hq : deqs tr ++ s.queue = submits tr := hI.queue_eq.symm
  refine ⟨hq, ?_⟩
  intro i j a b hij ha hb hbdeq
  have htake : (submits tr).take (deqs tr).length = deqs tr := by
    rw [← hq]
    exact List.take_left _ _
  have hnd : (submits tr).Nodup := List.Nodup.of_map _ hI.ids_nodup
  rcases List.mem_iff_get?.mp hbdeq with ⟨j2, hj2⟩
  have hj2len : j2 < (deqs tr).length := by
    rcases List.get?_eq_some.mp hj2 with ⟨h, _⟩
    exact h
  have hj2s : (submits tr).get? j2 = some b := by
    rw [← htake] at hj2
    rw [← List.get?_take hj2len]
    exact hj2
  have hj2slen : j2 < (submits tr).length := by
    rcases List.get?_eq_some.mp hj2s with ⟨h, _⟩
    exact h
  have hjj : j2 = j := List.get?_inj hj2slen hnd (hj2s.trans hb.symm)
  have hjlt : j < (deqs tr).length := hjj ▸ hj2len
  have hilt : i < (deqs tr).length := Nat.lt_trans hij hjlt
  constructor
  · rw [← htake, List.get?_take hilt]
    exact ha
  · rw [← hjj]
    exact hj2


/-- C6 witness: in the two-request single-worker run, both requests are
waiting before any dequeue and they are dequeued in submission order. -/
theorem dispatch_fifo_witness :
    deqs c6tr ++ c6s5.queue = submits c6tr ∧
      ∀ i j a b, i < j → (submits c6tr).get? i = some a → (submits c6tr).get? j = some b →
        b ∈ deqs c6tr → (deqs c6tr).get? i = some a ∧ (deqs c6tr).get? j = some b :=
  dispatch_fifo demoExec demoTraceFifo

/-- C8: the three ordered collections have inline capacities 8 (headers),
4 (params) and 4 (query); and a submitted request's fields — including a
headers collection of any size, e.g. 10 entries — reach the action
function in full and unchanged: the log record for a reply channel
carries exactly the submitted request. -/
theorem inline_collections_full_delivery {Engine : Type}
    (x : Engine → RequestView → JsonValue × Engine) :
    (∀ f : RequestView, f.headers.inlineCapacity = 8 ∧ f.params.inlineCapacity = 4 ∧
        f.query.inlineCapacity = 4) ∧
      ∀ {init_runtime_worker : String → Engine} {project_root : String}
        {num_threads : Nat} {tr : List Event} {s : PoolState Engine}
        (rec : ExecRecord Engine) (f : RequestView) (r : Nat),
        Trace x (RuntimeManager.new init_runtime_worker project_root num_threads) tr s →
        rec ∈ s.log → Event.submit { toRequestView := f, response_tx := r } ∈ tr →
        rec.rid = r → rec.request = f ∧ rec.request.headers.items = f.headers.items := by
  refine ⟨fun f => ⟨rfl, rfl, rfl⟩, ?_⟩
  intro iW root n tr s rec f r htr hrec hsubev hrid
  have hI := inv_reach htr
  have h1 := (hI.log_sub rec hrec).1
  rw [hrid] at h1
  have h2 : ({ toRequestView := f, response_tx := r } : WorkerCommand) ∈ submits tr :=
    mem_submits.mpr hsubev
  have heq := eq_of_mem_of_nodup_rid (submits tr) hI.ids_nodup _ _ h1 h2 rfl
  have hreq : rec.request = f := congrArg WorkerCommand.toRequestView heq
  exact ⟨hreq, by rw [hreq]⟩

/-- C8 witness: the 10-entry headers collection (beyond the 8-item inline
threshold) is delivered in full and in order. -/
theorem inline_collections_full_delivery_witness :
    (c8view.headers.inlineCapacity = 8 ∧ c8view.params.inlineCapacity = 4 ∧
        c8view.query.inlineCapacity = 4) ∧
      c8rec.request = c8view ∧ c8rec.request.headers.items = c8view.headers.items :=
  ⟨(inline_collections_full_delivery demoExec).1 c8view,
   (inline_collections_full_delivery demoExec).2 c8rec c8view 0 demoTraceHeaders
     (List.mem_append_right _ (List.Mem.head _)) (List.Mem.head _) rfl⟩

end Titan
